import Mathlib

/-!
Shallow embedding of the pipeline fragment executor
(`be/src/exec/pipeline/fragment_executor.cpp`) of the StarRocks backend,
together with theorems about its preparation and execution logic.

Pure data is modelled with `Int`, `Nat`, `Bool`, `List` and `Option`;
machine `int64_t` values are `Int` (the only division in scope is on
positive operands, embedded with `Int.tdiv`, the truncating division used
by C++).  Maps (`std::map`, `std::unordered_map`) are association lists.
-/

namespace FragmentExecutor

/-! ## Association-list helpers (embedding of map lookup / insert-or-assign) -/

def alookup {α : Type} (m : List (Int × α)) (k : Int) : Option α :=
  match m with
  | [] => none
  | (k1, v) :: rest => if k1 = k then some v else alookup rest k

def ainsert {α : Type} (m : List (Int × α)) (k : Int) (v : α) : List (Int × α) :=
  match m with
  | [] => [(k, v)]
  | (k1, v1) :: rest => if k1 = k then (k1, v) :: rest else (k1, v1) :: ainsert rest k v

theorem alookup_ainsert_self {α : Type} (m : List (Int × α)) (k : Int) (v : α) :
    alookup (ainsert m k v) k = some v := by
  induction m with
  | nil => simp [ainsert, alookup]
  | cons hd rest ih =>
    obtain ⟨k1, v1⟩ := hd
    by_cases hk : k1 = k
    · simp [ainsert, alookup, hk]
    · simp [ainsert, alookup, hk, ih]

theorem alookup_ainsert_ne {α : Type} (m : List (Int × α)) (k k1 : Int) (v : α)
    (hne : k1 ≠ k) : alookup (ainsert m k v) k1 = alookup m k1 := by
  induction m with
  | nil => simp [ainsert, alookup, Ne.symm hne]
  | cons hd rest ih =>
    obtain ⟨k2, v2⟩ := hd
    by_cases hk : k2 = k
    · subst hk
      simp [ainsert, alookup, Ne.symm hne]
    · by_cases hk1 : k2 = k1 <;> simp [ainsert, alookup, hk, hk1, ih, hne]

/-! ## Query options and expiration deadlines

Embeds `FragmentExecutor::_calc_delivery_expired_seconds` and
`FragmentExecutor::_calc_query_expired_seconds`
(`fragment_executor.cpp`, lines 304-329).  A `TQueryOptions` field guarded
by `__isset` is an `Option Int`.
-/

structure QueryOptions where
  query_timeout : Option Int
  query_delivery_timeout : Option Int
  deriving DecidableEq

/-- Modelled from the spec: `QueryContext::DEFAULT_EXPIRE_SECONDS` lives in
`query_context.h`, which is outside the embedded source; the spec only calls
it "a fixed default" used when neither timeout option is set. -/
def DEFAULT_EXPIRE_SECONDS : Int := 300

def calc_delivery_expired_seconds (qo : QueryOptions) : Int :=
  let expired_seconds :=
    match qo.query_delivery_timeout with
    | some d =>
      match qo.query_timeout with
      | some t => min t d
      | none => d
    | none =>
      match qo.query_timeout with
      | some t => t
      | none => DEFAULT_EXPIRE_SECONDS
  max 1 expired_seconds

def calc_query_expired_seconds (qo : QueryOptions) : Int :=
  match qo.query_timeout with
  | some t => max 1 t
  | none => DEFAULT_EXPIRE_SECONDS

/-- C8: the delivery-expire seconds are `max 1 (min query_timeout
query_delivery_timeout)` when both options are set, `max 1
query_delivery_timeout` when only the delivery timeout is set, `max 1
query_timeout` when only the query timeout is set, and the fixed default
otherwise; the query-expire seconds are `max 1 query_timeout` when set and
the fixed default otherwise.  In particular `query_timeout = 5` with the
delivery timeout unset yields delivery-expire 5 and query-expire 5, and
delivery timeout 2 with `query_timeout = 5` yields delivery-expire 2. -/
theorem c8_expire_seconds (qo : QueryOptions) (t d : Int) :
    (qo.query_delivery_timeout = some d → qo.query_timeout = some t →
      calc_delivery_expired_seconds qo = max 1 (min t d)) ∧
    (qo.query_delivery_timeout = some d → qo.query_timeout = none →
      calc_delivery_expired_seconds qo = max 1 d) ∧
    (qo.query_delivery_timeout = none → qo.query_timeout = some t →
      calc_delivery_expired_seconds qo = max 1 t) ∧
    (qo.query_delivery_timeout = none → qo.query_timeout = none →
      calc_delivery_expired_seconds qo = DEFAULT_EXPIRE_SECONDS) ∧
    (qo.query_timeout = some t → calc_query_expired_seconds qo = max 1 t) ∧
    (qo.query_timeout = none → calc_query_expired_seconds qo = DEFAULT_EXPIRE_SECONDS) ∧
    (calc_delivery_expired_seconds ⟨some 5, none⟩ = 5 ∧
      calc_query_expired_seconds ⟨some 5, none⟩ = 5 ∧
      calc_delivery_expired_seconds ⟨some 5, some 2⟩ = 2) := by
  refine ⟨?_, ?_, ?_, ?_, ?_, ?_, ?_⟩
  · intro h1 h2; simp [calc_delivery_expired_seconds, h1, h2]
  · intro h1 h2; simp [calc_delivery_expired_seconds, h1, h2]
  · intro h1 h2; simp [calc_delivery_expired_seconds, h1, h2]
  · intro h1 h2; simp [calc_delivery_expired_seconds, h1, h2, DEFAULT_EXPIRE_SECONDS]
  · intro h; simp [calc_query_expired_seconds, h]
  · intro h; simp [calc_query_expired_seconds, h]
  · exact ⟨by decide, by decide, by decide⟩

theorem c8_expire_seconds_witness :
    calc_delivery_expired_seconds ⟨some 5, some 2⟩ = max 1 (min 5 2) :=
  (c8_expire_seconds ⟨some 5, some 2⟩ 5 2).1 rfl rfl

/-! ## Scan nodes and the scan-row-limit computation

Embeds the scan-limit loop and the resource-group scan-rows-ceiling logic of
`FragmentExecutor::_prepare_exec_plan` (`fragment_executor.cpp`,
lines 449-474).
-/

/-- A `TScanRange`: the per-tablet cache-key computation only distinguishes
ranges that carry an `internal_scan_range` (with its `partition_id` and
`tablet_id`) from every other kind. -/
inductive ScanRangeM where
  | internal (partition_id tablet_id : Int)
  | other
  deriving DecidableEq

/-- The fields of a `ScanNode` read by `_prepare_exec_plan`, together with
its per-driver-sequence scan-range map from the request and the
`is_shared()` answer of the morsel queue factory built for it. -/
structure ScanNodeM where
  nid : Int
  limit : Int
  io_tasks_per_scan_operator : Int
  ranges_per_driver_seq : List (Nat × List ScanRangeM)
  morsel_queue_is_shared : Bool
  deriving DecidableEq

/-- The `logical_scan_limit` / `physical_scan_limit` accumulation loop:
a node with `limit > 0` contributes its limit to the logical total and
`normalized_limit * dop * io_tasks_per_scan_operator` (with the limit
rounded up to a multiple of the chunk size) to the physical total; the
first node without a positive limit sets the logical total to `-1` and
breaks out of the loop. -/
def scanLimitLoop (chunk_size dop : Int) : Int → Int → List ScanNodeM → Int × Int
  | logical, physical, [] => (logical, physical)
  | logical, physical, n :: rest =>
    if 0 < n.limit then
      scanLimitLoop chunk_size dop (logical + n.limit)
        (physical +
          Int.tdiv (n.limit + chunk_size - 1) chunk_size * chunk_size * dop *
            n.io_tasks_per_scan_operator)
        rest
    else (-1, physical)

def computeScanLimits (chunk_size dop : Int) (ns : List ScanNodeM) : Int × Int :=
  scanLimitLoop chunk_size dop 0 0 ns

/-- The resource-group big-query-scan-rows blending: when a workgroup is
present and has a positive `big_query_scan_rows_limit`, the query's scan
limit becomes `max(ceiling, physical)` if the logical limit is within
`[0, ceiling]` and the ceiling alone otherwise; without a workgroup or a
positive ceiling the previous scan limit is kept. -/
def applyBigQueryScanRowsLimit (wg_big_query_scan_rows_limit : Option Int)
    (logical physical : Int) (scan_limit : Option Int) : Option Int :=
  match wg_big_query_scan_rows_limit with
  | none => scan_limit
  | some bql =>
    if 0 < bql then
      if 0 ≤ logical ∧ logical ≤ bql then some (max bql physical) else some bql
    else scan_limit

theorem scanLimitLoop_all_pos (c d : Int) (ns : List ScanNodeM) :
    ∀ logical physical : Int, (∀ n ∈ ns, 0 < n.limit) →
      scanLimitLoop c d logical physical ns =
        (logical + (ns.map fun n => n.limit).sum,
          physical + (ns.map fun n =>
            Int.tdiv (n.limit + c - 1) c * c * d * n.io_tasks_per_scan_operator).sum) := by
  induction ns with
  | nil => intro logical physical _; simp [scanLimitLoop]
  | cons n rest ih =>
    intro logical physical h
    have hn : 0 < n.limit := h n (List.mem_cons_self n rest)
    rw [scanLimitLoop, if_pos hn, ih _ _ (fun m hm => h m (List.mem_cons_of_mem _ hm))]
    simp only [List.map_cons, List.sum_cons, Prod.mk.injEq]
    exact ⟨by ring, by ring⟩

theorem scanLimitLoop_nonpos (c d : Int) (ns : List ScanNodeM) :
    ∀ logical physical : Int, (∃ n ∈ ns, ¬ 0 < n.limit) →
      (scanLimitLoop c d logical physical ns).1 = -1 := by
  induction ns with
  | nil =>
    intro _ _ h
    simp at h
  | cons m rest ih =>
    intro logical physical h
    by_cases hm : 0 < m.limit
    · rw [scanLimitLoop, if_pos hm]
      apply ih
      rcases h with ⟨n, hn, hnl⟩
      rcases List.mem_cons.mp hn with rfl | hmem
      · exact absurd hm hnl
      · exact ⟨n, hmem, hnl⟩
    · rw [scanLimitLoop, if_neg hm]

theorem normalized_limit_ceiling (c L : Int) (hc : 0 < c) (hL : 0 < L) :
    L ≤ Int.tdiv (L + c - 1) c * c ∧ Int.tdiv (L + c - 1) c * c < L + c := by
  rw [Int.tdiv_eq_ediv (by omega) (by omega)]
  constructor
  · have h := Int.lt_ediv_add_one_mul_self (L + c - 1) hc
    nlinarith [h]
  · have h := Int.ediv_mul_le (L + c - 1) (ne_of_gt hc)
    omega

/-- C4: each scan node with a positive limit contributes
`tdiv (limit + c - 1) c * c * dop * io_tasks_per_scan_operator` to the
physical scan limit (and this normalized limit is exactly the limit rounded
up to the next multiple of the chunk size, i.e. `ceil(limit/c)*c`); if any
scan node lacks a positive limit, the aggregate logical limit is `-1` and
the group ceiling is then applied alone, without blending; with a positive
group ceiling and `0 ≤ logical ≤ ceiling` the fragment's scan limit becomes
`max(ceiling, physical)`, and otherwise the ceiling itself. -/
theorem c4_scan_limit_formula (c d bql : Int) (hc : 0 < c) (ns : List ScanNodeM) :
    ((∀ n ∈ ns, 0 < n.limit) →
      computeScanLimits c d ns =
        ((ns.map fun n => n.limit).sum,
          (ns.map fun n =>
            Int.tdiv (n.limit + c - 1) c * c * d * n.io_tasks_per_scan_operator).sum)) ∧
    (∀ L : Int, 0 < L →
      L ≤ Int.tdiv (L + c - 1) c * c ∧ Int.tdiv (L + c - 1) c * c < L + c) ∧
    ((∃ n ∈ ns, ¬ 0 < n.limit) → (computeScanLimits c d ns).1 = -1) ∧
    (∀ logical physical sl0 : Int, 0 < bql → 0 ≤ logical → logical ≤ bql →
      applyBigQueryScanRowsLimit (some bql) logical physical (some sl0) =
        some (max bql physical)) ∧
    (∀ physical sl0 : Int, 0 < bql →
      applyBigQueryScanRowsLimit (some bql) (-1) physical (some sl0) = some bql) ∧
    (∀ logical physical sl0 : Int, 0 < bql → bql < logical →
      applyBigQueryScanRowsLimit (some bql) logical physical (some sl0) = some bql) ∧
    (∀ logical physical sl0 : Int,
      applyBigQueryScanRowsLimit none logical physical (some sl0) = some sl0) := by
  refine ⟨?_, ?_, ?_, ?_, ?_, ?_, ?_⟩
  · intro h
    rw [computeScanLimits, scanLimitLoop_all_pos c d ns 0 0 h]
    simp
  · exact fun L hL => normalized_limit_ceiling c L hc hL
  · exact fun h => scanLimitLoop_nonpos c d ns 0 0 h
  · intro logical physical sl0 hb h0 h1
    rw [applyBigQueryScanRowsLimit, if_pos hb, if_pos ⟨h0, h1⟩]
  · intro physical sl0 hb
    rw [applyBigQueryScanRowsLimit, if_pos hb, if_neg (by omega)]
  · intro logical physical sl0 hb hgt
    rw [applyBigQueryScanRowsLimit, if_pos hb, if_neg (by omega)]
  · intro logical physical sl0
    rfl

theorem c4_scan_limit_formula_witness :
    (0 : Int) < 2 ∧
      computeScanLimits 2 3 [ScanNodeM.mk 1 5 2 [] false] = (5, 36) := by
  constructor
  · decide
  · have h := (c4_scan_limit_formula 2 3 10 (by decide) [ScanNodeM.mk 1 5 2 [] false]).1
      (by decide)
    rw [h]
    decide

/-! ## Query-cache parameters and the per-scan-node preparation loop

Embeds the scan-node loop of `FragmentExecutor::_prepare_exec_plan`
(`fragment_executor.cpp`, lines 395-447): per-node cache disabling on an
empty per-driver-sequence scan-range map, cache-key-prefix computation,
the cache/shared-scan exclusion and the per-node shared-scan flag.
-/

/-- Little-endian bytes of an `int64_t` value, as produced by inserting
`sizeof(int64_t)` raw bytes of the value into a string. -/
def i64_bytes (x : Int) : List Nat :=
  let u := (x % (2 : Int) ^ 64).toNat
  [u % 256, u / 256 % 256, u / 256 ^ 2 % 256, u / 256 ^ 3 % 256,
    u / 256 ^ 4 % 256, u / 256 ^ 5 % 256, u / 256 ^ 6 % 256, u / 256 ^ 7 % 256]

theorem i64_bytes_length (x : Int) : (i64_bytes x).length = 8 := rfl

/-- The cache-param fields read by the scan-node loop: the cache-eligible
plan-node ids and the per-partition region bytes. -/
structure CacheParamM where
  cached_plan_node_ids : List Int
  region_map : List (Int × List Nat)
  deriving DecidableEq

/-- Body of the inner loop over one scan range (lines 411-431): a range
without an `internal_scan_range`, or whose partition has no entry in the
region map, leaves the prefix map unchanged; otherwise the bytes of
`partition_id`, the region, and the bytes of `tablet_id` are concatenated
and stored under `tablet_id`. -/
def updateCacheKeyForRange (cp : CacheParamM) (m : List (Int × List Nat))
    (sr : ScanRangeM) : List (Int × List Nat) :=
  match sr with
  | .other => m
  | .internal partition_id tablet_id =>
    match alookup cp.region_map partition_id with
    | none => m
    | some region =>
      ainsert m tablet_id (i64_bytes partition_id ++ region ++ i64_bytes tablet_id)

/-- The two nested loops over `scan_ranges_per_driver_seq`. -/
def updateCacheKeysForSeqs (cp : CacheParamM) (m : List (Int × List Nat))
    (seqs : List (Nat × List ScanRangeM)) : List (Int × List Nat) :=
  seqs.foldl (fun acc kv => kv.2.foldl (updateCacheKeyForRange cp) acc) m

/-- The mutable state threaded through the scan-node loop: the fragment
context's `enable_cache`, the local `enable_shared_scan` variable, the
clamped `num_lanes`, the accumulated cache-key-prefix map, and the
shared-scan flag passed to `ScanNode::enable_shared_scan` for each node,
in order. -/
structure ExecPlanState where
  enable_cache : Bool
  enable_shared_scan : Bool
  num_lanes : Int
  cache_prefix_keys : List (Int × List Nat)
  shared_scan_flags : List (Int × Bool)
  deriving DecidableEq

/-- One iteration of the scan-node loop (lines 395-447). -/
def processScanNode (cp : CacheParamM) (query_cache_num_lanes_per_driver : Int)
    (st : ExecPlanState) (n : ScanNodeM) : ExecPlanState :=
  let enable_cache_1 := if n.ranges_per_driver_seq.isEmpty then false else st.enable_cache
  let should_compute := enable_cache_1 && cp.cached_plan_node_ids.contains n.nid
  let keys :=
    if should_compute then updateCacheKeysForSeqs cp st.cache_prefix_keys n.ranges_per_driver_seq
    else st.cache_prefix_keys
  let enable_shared_scan_1 := if enable_cache_1 then false else st.enable_shared_scan
  { enable_cache := enable_cache_1,
    enable_shared_scan := enable_shared_scan_1,
    num_lanes := min 16 (max 1 query_cache_num_lanes_per_driver),
    cache_prefix_keys := keys,
    shared_scan_flags :=
      st.shared_scan_flags ++ [(n.nid, enable_shared_scan_1 && n.morsel_queue_is_shared)] }

def prepareScanNodes (cp : CacheParamM) (cfg : Int) (st : ExecPlanState)
    (ns : List ScanNodeM) : ExecPlanState :=
  ns.foldl (processScanNode cp cfg) st

/-- State entering the loop: `enable_cache` is set exactly when the request
carries a `cache_param` and spill is off (lines 374-393), and the local
`enable_shared_scan` starts as the request's shared-scan flag (line 341). -/
def initExecPlanState (cache_param_isset enable_spill shared_scan_requested : Bool) :
    ExecPlanState :=
  { enable_cache := cache_param_isset && !enable_spill,
    enable_shared_scan := shared_scan_requested,
    num_lanes := 0,
    cache_prefix_keys := [],
    shared_scan_flags := [] }

/-- Shared-scan flag handed to node `n` when processed in state `st`
(line 445: `enable_shared_scan && morsel_queue_factory->is_shared()`). -/
def nodeSharedScanFlag (cp : CacheParamM) (cfg : Int) (st : ExecPlanState)
    (n : ScanNodeM) : Bool :=
  (processScanNode cp cfg st n).enable_shared_scan && n.morsel_queue_is_shared

theorem processScanNode_enable_cache (cp : CacheParamM) (cfg : Int)
    (st : ExecPlanState) (n : ScanNodeM) :
    (processScanNode cp cfg st n).enable_cache =
      if n.ranges_per_driver_seq.isEmpty then false else st.enable_cache := rfl

theorem processScanNode_enable_shared_scan (cp : CacheParamM) (cfg : Int)
    (st : ExecPlanState) (n : ScanNodeM) :
    (processScanNode cp cfg st n).enable_shared_scan =
      if (if n.ranges_per_driver_seq.isEmpty then false else st.enable_cache) then false
      else st.enable_shared_scan := rfl

theorem processScanNode_flags (cp : CacheParamM) (cfg : Int)
    (st : ExecPlanState) (n : ScanNodeM) :
    (processScanNode cp cfg st n).shared_scan_flags =
      st.shared_scan_flags ++ [(n.nid, nodeSharedScanFlag cp cfg st n)] := rfl

theorem processScanNode_cache_prefix_keys (cp : CacheParamM) (cfg : Int)
    (st : ExecPlanState) (n : ScanNodeM) :
    (processScanNode cp cfg st n).cache_prefix_keys =
      if (if n.ranges_per_driver_seq.isEmpty then false else st.enable_cache) &&
          cp.cached_plan_node_ids.contains n.nid then
        updateCacheKeysForSeqs cp st.cache_prefix_keys n.ranges_per_driver_seq
      else st.cache_prefix_keys := rfl

theorem prepareScanNodes_cons (cp : CacheParamM) (cfg : Int) (st : ExecPlanState)
    (n : ScanNodeM) (ns : List ScanNodeM) :
    prepareScanNodes cp cfg st (n :: ns) =
      prepareScanNodes cp cfg (processScanNode cp cfg st n) ns := rfl

theorem prepareScanNodes_append (cp : CacheParamM) (cfg : Int) (st : ExecPlanState)
    (l1 l2 : List ScanNodeM) :
    prepareScanNodes cp cfg st (l1 ++ l2) =
      prepareScanNodes cp cfg (prepareScanNodes cp cfg st l1) l2 :=
  List.foldl_append _ _ _ _

theorem prepareScanNodes_flags_mono (cp : CacheParamM) (cfg : Int) (ns : List ScanNodeM) :
    ∀ st : ExecPlanState, ∃ tail,
      (prepareScanNodes cp cfg st ns).shared_scan_flags = st.shared_scan_flags ++ tail := by
  induction ns with
  | nil => intro st; exact ⟨[], by simp [prepareScanNodes]⟩
  | cons n rest ih =>
    intro st
    obtain ⟨tail, htail⟩ := ih (processScanNode cp cfg st n)
    refine ⟨(n.nid, nodeSharedScanFlag cp cfg st n) :: tail, ?_⟩
    rw [prepareScanNodes_cons, htail, processScanNode_flags]
    simp

theorem prepareScanNodes_cache_true (cp : CacheParamM) (cfg : Int) (ns : List ScanNodeM) :
    ∀ st : ExecPlanState,
      (prepareScanNodes cp cfg st ns).enable_cache = true → st.enable_cache = true := by
  induction ns with
  | nil => intro st h; simpa [prepareScanNodes] using h
  | cons n rest ih =>
    intro st h
    have h1 := ih _ h
    rw [processScanNode_enable_cache] at h1
    by_cases he : n.ranges_per_driver_seq.isEmpty = true
    · rw [if_pos he] at h1; exact absurd h1 (by decide)
    · rwa [if_neg he] at h1

theorem prepareScanNodes_cache_false (cp : CacheParamM) (cfg : Int) (ns : List ScanNodeM) :
    ∀ st : ExecPlanState,
      st.enable_cache = false → (prepareScanNodes cp cfg st ns).enable_cache = false := by
  induction ns with
  | nil => intro st h; simpa [prepareScanNodes] using h
  | cons n rest ih =>
    intro st h
    rw [prepareScanNodes_cons]
    apply ih
    rw [processScanNode_enable_cache, h]
    simp

theorem prepareScanNodes_shared_true (cp : CacheParamM) (cfg : Int) (ns : List ScanNodeM) :
    ∀ st : ExecPlanState,
      (prepareScanNodes cp cfg st ns).enable_shared_scan = true →
        st.enable_shared_scan = true := by
  induction ns with
  | nil => intro st h; simpa [prepareScanNodes] using h
  | cons n rest ih =>
    intro st h
    have h1 := ih _ h
    rw [processScanNode_enable_shared_scan] at h1
    cases hce : (if n.ranges_per_driver_seq.isEmpty then false else st.enable_cache) with
    | false => rw [hce] at h1; simpa using h1
    | true => rw [hce] at h1; simp at h1

theorem prepareScanNodes_flags_of_cache (cp : CacheParamM) (cfg : Int)
    (ns : List ScanNodeM) :
    ∀ st : ExecPlanState, (prepareScanNodes cp cfg st ns).enable_cache = true →
      ∀ x ∈ (prepareScanNodes cp cfg st ns).shared_scan_flags,
        x ∈ st.shared_scan_flags ∨ x.2 = false := by
  induction ns with
  | nil => intro st _ x hx; exact Or.inl (by simpa [prepareScanNodes] using hx)
  | cons n rest ih =>
    intro st h x hx
    rw [prepareScanNodes_cons] at h hx
    rcases ih _ h x hx with hmem | hfalse
    · rw [processScanNode_flags] at hmem
      rcases List.mem_append.mp hmem with h1 | h2
      · exact Or.inl h1
      · right
        have hx2 : x = (n.nid, nodeSharedScanFlag cp cfg st n) := by simpa using h2
        have hst1 : (processScanNode cp cfg st n).enable_cache = true :=
          prepareScanNodes_cache_true cp cfg rest _ h
        rw [processScanNode_enable_cache] at hst1
        have hflag : nodeSharedScanFlag cp cfg st n = false := by
          unfold nodeSharedScanFlag
          rw [processScanNode_enable_shared_scan, hst1, if_pos rfl, Bool.false_and]
        rw [hx2]
        exact hflag
    · exact Or.inr hfalse

/-- C5: if the query cache is still enabled for the fragment after plan
preparation, then every scan node in the fragment had its shared-scan flag
forced to `false`; cache mode and shared-scan mode are never both true for
the same scan operator. -/
theorem c5_cache_forces_shared_scan_off (cp : CacheParamM) (cfg : Int)
    (cache_param_isset enable_spill shared_scan_requested : Bool) (ns : List ScanNodeM)
    (hcache : (prepareScanNodes cp cfg
        (initExecPlanState cache_param_isset enable_spill shared_scan_requested)
        ns).enable_cache = true) :
    (∀ x ∈ (prepareScanNodes cp cfg
        (initExecPlanState cache_param_isset enable_spill shared_scan_requested)
        ns).shared_scan_flags, x.2 = false) ∧
    (∀ x ∈ (prepareScanNodes cp cfg
        (initExecPlanState cache_param_isset enable_spill shared_scan_requested)
        ns).shared_scan_flags, ¬(x.2 = true)) := by
  have hall : ∀ x ∈ (prepareScanNodes cp cfg
      (initExecPlanState cache_param_isset enable_spill shared_scan_requested)
      ns).shared_scan_flags, x.2 = false := by
    intro x hx
    rcases prepareScanNodes_flags_of_cache cp cfg ns _ hcache x hx with hmem | hfalse
    · exact absurd hmem (by simp [initExecPlanState])
    · exact hfalse
  exact ⟨hall, fun x hx hx2 => by rw [hall x hx] at hx2; exact absurd hx2 (by decide)⟩

theorem c5_cache_forces_shared_scan_off_witness :
    (prepareScanNodes (CacheParamM.mk [1] [(10, [1, 2])]) 4
        (initExecPlanState true false true)
        [ScanNodeM.mk 1 5 2 [(0, [ScanRangeM.internal 10 20])] true]).enable_cache = true ∧
    (∀ x ∈ (prepareScanNodes (CacheParamM.mk [1] [(10, [1, 2])]) 4
        (initExecPlanState true false true)
        [ScanNodeM.mk 1 5 2 [(0, [ScanRangeM.internal 10 20])] true]).shared_scan_flags,
      x.2 = false) :=
  ⟨by decide,
    (c5_cache_forces_shared_scan_off (CacheParamM.mk [1] [(10, [1, 2])]) 4 true false true
      [ScanNodeM.mk 1 5 2 [(0, [ScanRangeM.internal 10 20])] true] (by decide)).1⟩

theorem prepareScanNodes_empty_seq_cache_off (cp : CacheParamM) (cfg : Int)
    (ns : List ScanNodeM) :
    ∀ st : ExecPlanState, (∃ n ∈ ns, n.ranges_per_driver_seq.isEmpty = true) →
      (prepareScanNodes cp cfg st ns).enable_cache = false := by
  induction ns with
  | nil => intro st h; simp at h
  | cons m rest ih =>
    intro st h
    rw [prepareScanNodes_cons]
    rcases h with ⟨n, hn, hne⟩
    rcases List.mem_cons.mp hn with rfl | hmem
    · apply prepareScanNodes_cache_false
      rw [processScanNode_enable_cache, if_pos hne]
    · exact ih _ ⟨n, hmem, hne⟩

/-- C6: for a fragment with the query cache requested, if any scan node's
per-driver-sequence scan-range map is empty, the whole fragment ends plan
preparation with caching disabled. -/
theorem c6_empty_driver_seq_disables_cache (cp : CacheParamM) (cfg : Int)
    (enable_spill shared_scan_requested : Bool) (ns : List ScanNodeM)
    (h : ∃ n ∈ ns, n.ranges_per_driver_seq = []) :
    (prepareScanNodes cp cfg (initExecPlanState true enable_spill shared_scan_requested)
      ns).enable_cache = false := by
  apply prepareScanNodes_empty_seq_cache_off
  rcases h with ⟨n, hn, he⟩
  exact ⟨n, hn, by simp [he]⟩

theorem c6_empty_driver_seq_disables_cache_witness :
    (∃ n ∈ [ScanNodeM.mk 1 5 2 [] true], n.ranges_per_driver_seq = []) ∧
    (prepareScanNodes (CacheParamM.mk [1] [(10, [1, 2])]) 4
      (initExecPlanState true false true)
      [ScanNodeM.mk 1 5 2 [] true]).enable_cache = false :=
  ⟨by decide,
    c6_empty_driver_seq_disables_cache (CacheParamM.mk [1] [(10, [1, 2])]) 4 false true
      [ScanNodeM.mk 1 5 2 [] true] (by decide)⟩

/-- C7: when the cache is enabled and a node is cache-eligible, an internal
scan range whose partition has a registered region stores, under its
`tablet_id`, the byte concatenation of `partition_id`, the region bytes and
`tablet_id`, of length `sizeof(partition_id) + len(region) +
sizeof(tablet_id)`; a range whose partition has no registered region, or
that is not an internal scan range, stores nothing. -/
theorem c7_cache_prefix_key_bytes (cp : CacheParamM) (m : List (Int × List Nat))
    (partition_id tablet_id : Int) (region : List Nat) :
    (alookup cp.region_map partition_id = some region →
      updateCacheKeyForRange cp m (ScanRangeM.internal partition_id tablet_id) =
        ainsert m tablet_id (i64_bytes partition_id ++ region ++ i64_bytes tablet_id) ∧
      (i64_bytes partition_id ++ region ++ i64_bytes tablet_id).length =
        8 + region.length + 8 ∧
      alookup (updateCacheKeyForRange cp m (ScanRangeM.internal partition_id tablet_id))
          tablet_id =
        some (i64_bytes partition_id ++ region ++ i64_bytes tablet_id)) ∧
    (alookup cp.region_map partition_id = none →
      updateCacheKeyForRange cp m (ScanRangeM.internal partition_id tablet_id) = m) ∧
    (updateCacheKeyForRange cp m ScanRangeM.other = m) ∧
    (∀ (cfg : Int) (st : ExecPlanState) (n : ScanNodeM),
      (if n.ranges_per_driver_seq.isEmpty then false else st.enable_cache) = true →
      cp.cached_plan_node_ids.contains n.nid = true →
      (processScanNode cp cfg st n).cache_prefix_keys =
        updateCacheKeysForSeqs cp st.cache_prefix_keys n.ranges_per_driver_seq) := by
  refine ⟨?_, ?_, ?_, ?_⟩
  · intro h
    refine ⟨?_, ?_, ?_⟩
    · simp [updateCacheKeyForRange, h]
    · simp [List.length_append, i64_bytes_length]
      omega
    · simp [updateCacheKeyForRange, h, alookup_ainsert_self]
  · intro h
    simp [updateCacheKeyForRange, h]
  · rfl
  · intro cfg st n hec hcont
    rw [processScanNode_cache_prefix_keys, hec, hcont]
    simp

theorem c7_cache_prefix_key_bytes_witness :
    alookup (CacheParamM.mk [1] [(10, [1, 2])]).region_map 10 = some [1, 2] ∧
    updateCacheKeyForRange (CacheParamM.mk [1] [(10, [1, 2])]) []
        (ScanRangeM.internal 10 20) =
      ainsert [] 20 (i64_bytes 10 ++ [1, 2] ++ i64_bytes 20) :=
  ⟨by decide,
    ((c7_cache_prefix_key_bytes (CacheParamM.mk [1] [(10, [1, 2])]) [] 10 20 [1, 2]).1
      (by decide)).1⟩

/-- C10: the shared-scan flag handed to a scan node by `_prepare_exec_plan`
is exactly the value appended to the per-node flag trace, and when it is
true, then shared scan was requested for the fragment, the node's own
morsel queue factory reports shared, and the query cache is not enabled at
the time the node is processed — a fragment-level shared-scan request alone
never turns shared scan on for a node whose morsel queue factory is not
shared. -/
theorem c10_shared_scan_flag_conditions (cp : CacheParamM) (cfg : Int)
    (cache_param_isset enable_spill shared_scan_requested : Bool)
    (l1 l2 : List ScanNodeM) (n : ScanNodeM) :
    ((processScanNode cp cfg (prepareScanNodes cp cfg
        (initExecPlanState cache_param_isset enable_spill shared_scan_requested) l1)
        n).shared_scan_flags =
      (prepareScanNodes cp cfg
        (initExecPlanState cache_param_isset enable_spill shared_scan_requested)
        l1).shared_scan_flags ++
        [(n.nid, nodeSharedScanFlag cp cfg (prepareScanNodes cp cfg
          (initExecPlanState cache_param_isset enable_spill shared_scan_requested) l1) n)]) ∧
    (nodeSharedScanFlag cp cfg (prepareScanNodes cp cfg
        (initExecPlanState cache_param_isset enable_spill shared_scan_requested) l1) n =
          true →
      shared_scan_requested = true ∧ n.morsel_queue_is_shared = true ∧
      (processScanNode cp cfg (prepareScanNodes cp cfg
        (initExecPlanState cache_param_isset enable_spill shared_scan_requested) l1)
        n).enable_cache = false) ∧
    ((n.nid, nodeSharedScanFlag cp cfg (prepareScanNodes cp cfg
        (initExecPlanState cache_param_isset enable_spill shared_scan_requested) l1) n) ∈
      (prepareScanNodes cp cfg
        (initExecPlanState cache_param_isset enable_spill shared_scan_requested)
        (l1 ++ n :: l2)).shared_scan_flags) := by
  refine ⟨processScanNode_flags cp cfg _ n, ?_, ?_⟩
  · intro hf
    rw [nodeSharedScanFlag, Bool.and_eq_true] at hf
    obtain ⟨hess, hshared⟩ := hf
    rw [processScanNode_enable_shared_scan] at hess
    cases hce : (if n.ranges_per_driver_seq.isEmpty then false
        else (prepareScanNodes cp cfg
          (initExecPlanState cache_param_isset enable_spill shared_scan_requested)
          l1).enable_cache) with
    | true => rw [hce] at hess; simp at hess
    | false =>
      rw [hce] at hess
      simp only [Bool.false_eq_true, if_false] at hess
      refine ⟨?_, hshared, ?_⟩
      · have hinit := prepareScanNodes_shared_true cp cfg l1 _ hess
        simpa [initExecPlanState] using hinit
      · rw [processScanNode_enable_cache]
        exact hce
  · have happ : l1 ++ n :: l2 = (l1 ++ [n]) ++ l2 := by simp
    rw [happ, prepareScanNodes_append, prepareScanNodes_append]
    obtain ⟨tail, htail⟩ := prepareScanNodes_flags_mono cp cfg l2
      (prepareScanNodes cp cfg (prepareScanNodes cp cfg
        (initExecPlanState cache_param_isset enable_spill shared_scan_requested) l1) [n])
    rw [htail]
    have hstep : prepareScanNodes cp cfg (prepareScanNodes cp cfg
        (initExecPlanState cache_param_isset enable_spill shared_scan_requested) l1) [n] =
        processScanNode cp cfg (prepareScanNodes cp cfg
          (initExecPlanState cache_param_isset enable_spill shared_scan_requested) l1) n :=
      rfl
    rw [hstep, processScanNode_flags]
    simp

theorem c10_shared_scan_flag_conditions_witness :
    nodeSharedScanFlag (CacheParamM.mk [] []) 4
        (prepareScanNodes (CacheParamM.mk [] []) 4 (initExecPlanState false false true) [])
        (ScanNodeM.mk 1 0 1 [(0, [ScanRangeM.other])] true) = true ∧
    (true = true ∧ (ScanNodeM.mk 1 0 1 [(0, [ScanRangeM.other])] true).morsel_queue_is_shared
        = true ∧
      (processScanNode (CacheParamM.mk [] []) 4
        (prepareScanNodes (CacheParamM.mk [] []) 4 (initExecPlanState false false true) [])
        (ScanNodeM.mk 1 0 1 [(0, [ScanRangeM.other])] true)).enable_cache = false) :=
  ⟨by decide,
    (c10_shared_scan_flag_conditions (CacheParamM.mk [] []) 4 false false true [] []
      (ScanNodeM.mk 1 0 1 [(0, [ScanRangeM.other])] true)).2.1 (by decide)⟩

/-! ## Adaptive pipeline groups, driver instantiation and gating events

Embeds the driver-instantiation loop of
`FragmentExecutor::_prepare_pipeline_driver` (`fragment_executor.cpp`,
lines 602-616) and `create_adaptive_group_initialize_events`
(lines 531-550).  The `PipelineGroupMap` (an `unordered_map` keyed by the
leader `SourceOperatorFactory*`) is an association list keyed by a leader
id; a leader's record also carries the data the event construction reads
from it. -/

structure LeaderInfo where
  lid : Nat
  adaptive_blocking_event : Option Nat
  group_dependent_pipelines : List Nat
  deriving DecidableEq

structure SourceOperatorFactoryM where
  is_adaptive_group_initial_active : Bool
  group_leader : LeaderInfo
  deriving DecidableEq

structure PipelineM where
  pid : Nat
  dop : Nat
  source_operator_factory : SourceOperatorFactoryM
  drivers : List Nat
  deriving DecidableEq

/-- Modelled from the spec: `Pipeline::instantiate_drivers` is declared
outside the embedded source; per the spec a pipeline "produces a set of
Drivers at instantiation time, one per lane". -/
def instantiate_drivers (p : PipelineM) : PipelineM :=
  { p with drivers := List.range p.dop }

/-- The `unready_pipeline_groups[leader].emplace_back(pipeline)` update:
append to the leader's entry, creating it if absent. -/
def groupAppend (m : List (LeaderInfo × List Nat)) (l : LeaderInfo) (pid : Nat) :
    List (LeaderInfo × List Nat) :=
  match m with
  | [] => [(l, [pid])]
  | (l1, pids) :: rest =>
    if l1.lid = l.lid then (l1, pids ++ [pid]) :: rest
    else (l1, pids) :: groupAppend rest l pid

/-- The pipeline loop of `_prepare_pipeline_driver` (lines 602-616):
a pipeline whose source operator is adaptive-group initially active gets
its drivers instantiated at once; any other pipeline is recorded, without
driver instantiation, in the unready group of its leader source operator. -/
def driverPrepLoop : List PipelineM → List (LeaderInfo × List Nat) →
    List PipelineM × List (LeaderInfo × List Nat)
  | [], groups => ([], groups)
  | p :: rest, groups =>
    if p.source_operator_factory.is_adaptive_group_initial_active then
      let r := driverPrepLoop rest groups
      (instantiate_drivers p :: r.1, r.2)
    else
      let r := driverPrepLoop rest
        (groupAppend groups p.source_operator_factory.group_leader p.pid)
      (p :: r.1, r.2)

inductive EventDep where
  | blocking (e : Nat)
  | pipeline_event (p : Nat)
  deriving DecidableEq

structure EventM where
  group_pipelines : List Nat
  deps : List EventDep
  deriving DecidableEq

/-- Dependencies wired onto one group's gating event (lines 541-546): the
leader's adaptive-blocking event when present, then the pipeline event of
every pipeline the leader declares a dependency on. -/
def group_event_deps (l : LeaderInfo) : List EventDep :=
  (match l.adaptive_blocking_event with
   | some e => [EventDep.blocking e]
   | none => []) ++ l.group_dependent_pipelines.map EventDep.pipeline_event

/-- Embeds `create_adaptive_group_initialize_events` (lines 531-550): one
event per unready group, holding the group's deferred pipelines, assigned
to the group's leader. -/
def create_adaptive_group_init_events (groups : List (LeaderInfo × List Nat)) :
    List (Nat × EventM) :=
  groups.map fun g => (g.1.lid, EventM.mk g.2 (group_event_deps g.1))

theorem instantiate_drivers_source (p : PipelineM) :
    (instantiate_drivers p).source_operator_factory = p.source_operator_factory := rfl

theorem driverPrepLoop_cons_active (p : PipelineM) (rest : List PipelineM)
    (groups : List (LeaderInfo × List Nat))
    (hp : p.source_operator_factory.is_adaptive_group_initial_active = true) :
    driverPrepLoop (p :: rest) groups =
      (instantiate_drivers p :: (driverPrepLoop rest groups).1,
        (driverPrepLoop rest groups).2) := by
  simp [driverPrepLoop, hp]

theorem driverPrepLoop_cons_inactive (p : PipelineM) (rest : List PipelineM)
    (groups : List (LeaderInfo × List Nat))
    (hp : p.source_operator_factory.is_adaptive_group_initial_active = false) :
    driverPrepLoop (p :: rest) groups =
      (p :: (driverPrepLoop rest
          (groupAppend groups p.source_operator_factory.group_leader p.pid)).1,
        (driverPrepLoop rest
          (groupAppend groups p.source_operator_factory.group_leader p.pid)).2) := by
  simp [driverPrepLoop, hp]

theorem driverPrepLoop_pipelines (ps : List PipelineM) :
    ∀ groups, (driverPrepLoop ps groups).1 =
      ps.map fun p =>
        if p.source_operator_factory.is_adaptive_group_initial_active then
          instantiate_drivers p
        else p := by
  induction ps with
  | nil => intro groups; rfl
  | cons p rest ih =>
    intro groups
    cases hp : p.source_operator_factory.is_adaptive_group_initial_active with
    | true => rw [driverPrepLoop_cons_active p rest groups hp]; simp [hp, ih]
    | false => rw [driverPrepLoop_cons_inactive p rest groups hp]; simp [hp, ih]

theorem groupAppend_mem_new (m : List (LeaderInfo × List Nat)) (l : LeaderInfo)
    (pid : Nat) :
    ∃ g ∈ groupAppend m l pid, g.1.lid = l.lid ∧ pid ∈ g.2 := by
  induction m with
  | nil => exact ⟨(l, [pid]), by simp [groupAppend]⟩
  | cons hd rest ih =>
    obtain ⟨l1, pids⟩ := hd
    by_cases h : l1.lid = l.lid
    · exact ⟨(l1, pids ++ [pid]), by simp [groupAppend, h], h, by simp⟩
    · obtain ⟨g, hg, hgl, hgp⟩ := ih
      exact ⟨g, by simp [groupAppend, h]; exact Or.inr hg, hgl, hgp⟩

theorem groupAppend_mem_old (m : List (LeaderInfo × List Nat)) (l : LeaderInfo)
    (pid : Nat) (k x : Nat) :
    (∃ g ∈ m, g.1.lid = k ∧ x ∈ g.2) →
      ∃ g ∈ groupAppend m l pid, g.1.lid = k ∧ x ∈ g.2 := by
  induction m with
  | nil => intro h; simp at h
  | cons hd rest ih =>
    intro h
    obtain ⟨l1, pids⟩ := hd
    obtain ⟨g, hg, hgl, hgx⟩ := h
    by_cases hl : l1.lid = l.lid
    · rcases List.mem_cons.mp hg with rfl | hmem
      · exact ⟨(l1, pids ++ [pid]), by simp [groupAppend, hl], hgl,
          List.mem_append_left _ hgx⟩
      · exact ⟨g, by simp [groupAppend, hl]; exact Or.inr hmem, hgl, hgx⟩
    · rcases List.mem_cons.mp hg with rfl | hmem
      · exact ⟨(l1, pids), by simp [groupAppend, hl], hgl, hgx⟩
      · obtain ⟨g2, hg2, hg2l, hg2x⟩ := ih ⟨g, hmem, hgl, hgx⟩
        exact ⟨g2, by simp [groupAppend, hl]; exact Or.inr hg2, hg2l, hg2x⟩

theorem groupAppend_nonempty (m : List (LeaderInfo × List Nat)) (l : LeaderInfo)
    (pid : Nat) (h : ∀ g ∈ m, g.2 ≠ []) :
    ∀ g ∈ groupAppend m l pid, g.2 ≠ [] := by
  induction m with
  | nil => intro g hg; simp [groupAppend] at hg; simp [hg]
  | cons hd rest ih =>
    obtain ⟨l1, pids⟩ := hd
    intro g hg
    by_cases hl : l1.lid = l.lid
    · rw [groupAppend, if_pos hl] at hg
      rcases List.mem_cons.mp hg with rfl | hmem
      · simp
      · exact h g (List.mem_cons_of_mem _ hmem)
    · rw [groupAppend, if_neg hl] at hg
      rcases List.mem_cons.mp hg with rfl | hmem
      · exact h _ (List.mem_cons_self _ _)
      · exact ih (fun g2 hg2 => h g2 (List.mem_cons_of_mem _ hg2)) g hmem

theorem groupAppend_keys_split (m : List (LeaderInfo × List Nat)) (l : LeaderInfo)
    (pid : Nat) :
    (l.lid ∈ m.map (fun g => g.1.lid) ∧
      (groupAppend m l pid).map (fun g => g.1.lid) = m.map (fun g => g.1.lid)) ∨
    (l.lid ∉ m.map (fun g => g.1.lid) ∧
      (groupAppend m l pid).map (fun g => g.1.lid) =
        m.map (fun g => g.1.lid) ++ [l.lid]) := by
  induction m with
  | nil => right; simp [groupAppend]
  | cons hd rest ih =>
    obtain ⟨l1, pids⟩ := hd
    by_cases hl : l1.lid = l.lid
    · left
      constructor
      · simp [hl]
      · simp [groupAppend, hl]
    · rcases ih with ⟨hin, heq⟩ | ⟨hnin, heq⟩
      · left
        constructor
        · simp [hin]
        · simp [groupAppend, hl, heq]
      · right
        constructor
        · simp [hnin, Ne.symm hl]
        · simp [groupAppend, hl, heq]

theorem groupAppend_keys_nodup (m : List (LeaderInfo × List Nat)) (l : LeaderInfo)
    (pid : Nat) (h : (m.map fun g => g.1.lid).Nodup) :
    ((groupAppend m l pid).map fun g => g.1.lid).Nodup := by
  rcases groupAppend_keys_split m l pid with ⟨_, heq⟩ | ⟨hnin, heq⟩
  · rwa [heq]
  · rw [heq, List.nodup_append]
    refine ⟨h, List.nodup_singleton _, ?_⟩
    intro a ha hb
    rw [List.mem_singleton.mp hb] at ha
    exact hnin ha

theorem driverPrepLoop_groups_pres (ps : List PipelineM) (k x : Nat) :
    ∀ groups, (∃ g ∈ groups, g.1.lid = k ∧ x ∈ g.2) →
      ∃ g ∈ (driverPrepLoop ps groups).2, g.1.lid = k ∧ x ∈ g.2 := by
  induction ps with
  | nil => intro groups h; exact h
  | cons p rest ih =>
    intro groups h
    cases hp : p.source_operator_factory.is_adaptive_group_initial_active with
    | true =>
      rw [driverPrepLoop_cons_active p rest groups hp]
      exact ih groups h
    | false =>
      rw [driverPrepLoop_cons_inactive p rest groups hp]
      exact ih _ (groupAppend_mem_old groups _ p.pid k x h)

theorem driverPrepLoop_groups_new (ps : List PipelineM) :
    ∀ groups, ∀ p ∈ ps,
      p.source_operator_factory.is_adaptive_group_initial_active = false →
      ∃ g ∈ (driverPrepLoop ps groups).2,
        g.1.lid = p.source_operator_factory.group_leader.lid ∧ p.pid ∈ g.2 := by
  induction ps with
  | nil => intro groups p hp; simp at hp
  | cons q rest ih =>
    intro groups p hp hinact
    rcases List.mem_cons.mp hp with rfl | hmem
    · rw [driverPrepLoop_cons_inactive p rest groups hinact]
      exact driverPrepLoop_groups_pres rest _ _ _
        (groupAppend_mem_new groups p.source_operator_factory.group_leader p.pid)
    · cases hq : q.source_operator_factory.is_adaptive_group_initial_active with
      | true =>
        rw [driverPrepLoop_cons_active q rest groups hq]
        exact ih groups p hmem hinact
      | false =>
        rw [driverPrepLoop_cons_inactive q rest groups hq]
        exact ih _ p hmem hinact

theorem driverPrepLoop_groups_nonempty (ps : List PipelineM) :
    ∀ groups, (∀ g ∈ groups, g.2 ≠ []) →
      ∀ g ∈ (driverPrepLoop ps groups).2, g.2 ≠ [] := by
  induction ps with
  | nil => intro groups h; exact h
  | cons p rest ih =>
    intro groups h
    cases hp : p.source_operator_factory.is_adaptive_group_initial_active with
    | true =>
      rw [driverPrepLoop_cons_active p rest groups hp]
      exact ih groups h
    | false =>
      rw [driverPrepLoop_cons_inactive p rest groups hp]
      exact ih _ (groupAppend_nonempty groups _ p.pid h)

theorem driverPrepLoop_keys_nodup (ps : List PipelineM) :
    ∀ groups, ((groups.map fun g => g.1.lid).Nodup) →
      (((driverPrepLoop ps groups).2.map fun g => g.1.lid).Nodup) := by
  induction ps with
  | nil => intro groups h; exact h
  | cons p rest ih =>
    intro groups h
    cases hp : p.source_operator_factory.is_adaptive_group_initial_active with
    | true =>
      rw [driverPrepLoop_cons_active p rest groups hp]
      exact ih groups h
    | false =>
      rw [driverPrepLoop_cons_inactive p rest groups hp]
      exact ih _ (groupAppend_keys_nodup groups _ p.pid h)

/-- C3: after the driver-instantiation loop, every pipeline whose source is
not adaptive-group initially active still has zero drivers; every such
pipeline is collected into the unready group of its leader; every unready
group is non-empty; group leaders are pairwise distinct, and the event
construction yields exactly one group-initialize event per non-empty
group, whose dependencies are the leader's adaptive-blocking event (when
present) followed by the pipeline events of the leader's declared
dependency pipelines; no unready groups yield no events. -/
theorem c3_adaptive_group_events (ps : List PipelineM)
    (h0 : ∀ p ∈ ps, p.drivers = []) :
    (∀ p ∈ (driverPrepLoop ps []).1,
      p.source_operator_factory.is_adaptive_group_initial_active = false →
        p.drivers = []) ∧
    (∀ g ∈ (driverPrepLoop ps []).2, g.2 ≠ []) ∧
    (∀ p ∈ ps, p.source_operator_factory.is_adaptive_group_initial_active = false →
      ∃ g ∈ (driverPrepLoop ps []).2,
        g.1.lid = p.source_operator_factory.group_leader.lid ∧ p.pid ∈ g.2) ∧
    (((driverPrepLoop ps []).2.map fun g => g.1.lid).Nodup) ∧
    (∀ g ∈ (driverPrepLoop ps []).2,
      (g.1.lid, EventM.mk g.2 (group_event_deps g.1)) ∈
        create_adaptive_group_init_events (driverPrepLoop ps []).2) ∧
    ((create_adaptive_group_init_events (driverPrepLoop ps []).2).length =
      (driverPrepLoop ps []).2.length) ∧
    ((driverPrepLoop ps []).2 = [] →
      create_adaptive_group_init_events (driverPrepLoop ps []).2 = []) := by
  refine ⟨?_, ?_, ?_, ?_, ?_, ?_, ?_⟩
  · intro p hp hinact
    rw [driverPrepLoop_pipelines ps []] at hp
    obtain ⟨q, hq, hfq⟩ := List.mem_map.mp hp
    by_cases hqa : q.source_operator_factory.is_adaptive_group_initial_active = true
    · rw [if_pos hqa] at hfq
      rw [← hfq, instantiate_drivers_source] at hinact
      rw [hinact] at hqa
      exact absurd hqa (by decide)
    · rw [if_neg hqa] at hfq
      rw [← hfq]
      exact h0 q hq
  · exact driverPrepLoop_groups_nonempty ps [] (by simp)
  · exact driverPrepLoop_groups_new ps []
  · exact driverPrepLoop_keys_nodup ps [] (by simp)
  · intro g hg
    exact List.mem_map_of_mem _ hg
  · exact List.length_map _ _
  · intro h
    rw [h]
    rfl

theorem c3_adaptive_group_events_witness :
    (∀ p ∈ [PipelineM.mk 1 2 (SourceOperatorFactoryM.mk true (LeaderInfo.mk 0 none [])) [],
        PipelineM.mk 2 3 (SourceOperatorFactoryM.mk false (LeaderInfo.mk 5 (some 7) [1])) []],
      p.drivers = []) ∧
    (∀ g ∈ (driverPrepLoop
        [PipelineM.mk 1 2 (SourceOperatorFactoryM.mk true (LeaderInfo.mk 0 none [])) [],
          PipelineM.mk 2 3 (SourceOperatorFactoryM.mk false (LeaderInfo.mk 5 (some 7) [1])) []]
        []).2, g.2 ≠ []) :=
  ⟨by decide,
    (c3_adaptive_group_events
      [PipelineM.mk 1 2 (SourceOperatorFactoryM.mk true (LeaderInfo.mk 0 none [])) [],
        PipelineM.mk 2 3 (SourceOperatorFactoryM.mk false (LeaderInfo.mk 5 (some 7) [1])) []]
      (by decide)).2.1⟩

/-! ## Execution submission

Embeds `FragmentExecutor::execute` (`fragment_executor.cpp`,
lines 744-793): `iterate_active_drivers` visits, in order, the drivers of
every pipeline whose source operator is adaptive-group initially active;
the first phase calls `prepare` on each such driver, stopping at the first
failure (which triggers `_fail_cleanup` through the deferred guard and
returns the error); only when every active driver prepared successfully is
each active driver submitted to the workgroup driver executor. -/

structure DriverE where
  did : Nat
  prepare_ok : Bool
  deriving DecidableEq

structure PipelineE where
  source_initial_active : Bool
  drivers : List DriverE
  deriving DecidableEq

/-- Drivers visited by `iterate_active_drivers`, in visiting order. -/
def active_drivers : List PipelineE → List DriverE
  | [] => []
  | p :: rest =>
    if p.source_initial_active then p.drivers ++ active_drivers rest
    else active_drivers rest

/-- The prepare phase over a driver list: returns the drivers on which
`prepare` was invoked (in order, including a failing one) and whether all
of them succeeded. -/
def prepare_drivers_loop : List DriverE → List Nat × Bool
  | [] => ([], true)
  | d :: rest =>
    if d.prepare_ok then
      ((prepare_drivers_loop rest).1.cons d.did, (prepare_drivers_loop rest).2)
    else ([d.did], false)

structure ExecuteOutcome where
  success : Bool
  prepared_driver_ids : List Nat
  submitted_driver_ids : List Nat
  cleanup_ran : Bool
  deriving DecidableEq

def executeM (ps : List PipelineE) : ExecuteOutcome :=
  if (prepare_drivers_loop (active_drivers ps)).2 then
    { success := true,
      prepared_driver_ids := (prepare_drivers_loop (active_drivers ps)).1,
      submitted_driver_ids := (active_drivers ps).map fun d => d.did,
      cleanup_ran := false }
  else
    { success := false,
      prepared_driver_ids := (prepare_drivers_loop (active_drivers ps)).1,
      submitted_driver_ids := [],
      cleanup_ran := true }

theorem prepare_drivers_loop_sub (ds : List DriverE) :
    ∀ i ∈ (prepare_drivers_loop ds).1, ∃ d ∈ ds, d.did = i := by
  induction ds with
  | nil => intro i hi; simp [prepare_drivers_loop] at hi
  | cons d rest ih =>
    intro i hi
    by_cases hd : d.prepare_ok = true
    · rw [prepare_drivers_loop, if_pos hd] at hi
      rcases List.mem_cons.mp hi with rfl | hmem
      · exact ⟨d, List.mem_cons_self _ _, rfl⟩
      · obtain ⟨d2, hd2, hd2i⟩ := ih i hmem
        exact ⟨d2, List.mem_cons_of_mem _ hd2, hd2i⟩
    · rw [prepare_drivers_loop, if_neg hd] at hi
      rw [List.mem_singleton.mp hi]
      exact ⟨d, List.mem_cons_self _ _, rfl⟩

theorem prepare_drivers_loop_all_ok (ds : List DriverE)
    (h : ∀ d ∈ ds, d.prepare_ok = true) :
    prepare_drivers_loop ds = (ds.map fun d => d.did, true) := by
  induction ds with
  | nil => rfl
  | cons d rest ih =>
    have hd : d.prepare_ok = true := h d (List.mem_cons_self _ _)
    rw [prepare_drivers_loop, if_pos hd, ih (fun d2 hd2 => h d2 (List.mem_cons_of_mem _ hd2))]
    simp

theorem prepare_drivers_loop_fail (ds : List DriverE)
    (h : ∃ d ∈ ds, d.prepare_ok = false) :
    (prepare_drivers_loop ds).2 = false := by
  induction ds with
  | nil => simp at h
  | cons d rest ih =>
    by_cases hd : d.prepare_ok = true
    · rw [prepare_drivers_loop, if_pos hd]
      apply ih
      rcases h with ⟨d2, hd2, hd2f⟩
      rcases List.mem_cons.mp hd2 with rfl | hmem
      · rw [hd] at hd2f; exact absurd hd2f (by decide)
      · exact ⟨d2, hmem, hd2f⟩
    · rw [prepare_drivers_loop, if_neg hd]

theorem active_drivers_mem (ps : List PipelineE) :
    ∀ d ∈ active_drivers ps, ∃ p ∈ ps, p.source_initial_active = true ∧ d ∈ p.drivers := by
  induction ps with
  | nil => intro d hd; simp [active_drivers] at hd
  | cons p rest ih =>
    intro d hd
    by_cases hp : p.source_initial_active = true
    · rw [active_drivers, if_pos hp] at hd
      rcases List.mem_append.mp hd with hmem | hmem
      · exact ⟨p, List.mem_cons_self _ _, hp, hmem⟩
      · obtain ⟨p2, hp2, hp2a, hp2d⟩ := ih d hmem
        exact ⟨p2, List.mem_cons_of_mem _ hp2, hp2a, hp2d⟩
    · rw [active_drivers, if_neg hp] at hd
      obtain ⟨p2, hp2, hp2a, hp2d⟩ := ih d hd
      exact ⟨p2, List.mem_cons_of_mem _ hp2, hp2a, hp2d⟩

/-- C9: `execute()` touches only drivers of pipelines whose source is
adaptive-group initially active — every prepared or submitted driver id
belongs to an active pipeline's driver, so deferred pipelines' drivers are
neither prepared nor submitted; when every active driver prepares
successfully, all of them (and nothing else) are submitted and no cleanup
runs; when some active driver fails to prepare, nothing is submitted and
the fragment cleanup path runs. -/
theorem c9_execute_active_only (ps : List PipelineE) :
    (∀ i ∈ (executeM ps).prepared_driver_ids, ∃ d ∈ active_drivers ps, d.did = i) ∧
    (∀ i ∈ (executeM ps).submitted_driver_ids, ∃ d ∈ active_drivers ps, d.did = i) ∧
    (∀ d ∈ active_drivers ps, ∃ p ∈ ps, p.source_initial_active = true ∧ d ∈ p.drivers) ∧
    ((∀ d ∈ active_drivers ps, d.prepare_ok = true) →
      (executeM ps).success = true ∧
      (executeM ps).prepared_driver_ids = ((active_drivers ps).map fun d => d.did) ∧
      (executeM ps).submitted_driver_ids = ((active_drivers ps).map fun d => d.did) ∧
      (executeM ps).cleanup_ran = false) ∧
    ((∃ d ∈ active_drivers ps, d.prepare_ok = false) →
      (executeM ps).success = false ∧
      (executeM ps).submitted_driver_ids = [] ∧
      (executeM ps).cleanup_ran = true) := by
  refine ⟨?_, ?_, active_drivers_mem ps, ?_, ?_⟩
  · intro i hi
    apply prepare_drivers_loop_sub
    by_cases hok : (prepare_drivers_loop (active_drivers ps)).2 = true
    · rw [executeM, if_pos hok] at hi
      exact hi
    · rw [executeM, if_neg hok] at hi
      exact hi
  · intro i hi
    by_cases hok : (prepare_drivers_loop (active_drivers ps)).2 = true
    · rw [executeM, if_pos hok] at hi
      obtain ⟨d, hd, hdi⟩ := List.mem_map.mp hi
      exact ⟨d, hd, hdi⟩
    · rw [executeM, if_neg hok] at hi
      simp at hi
  · intro h
    have hloop := prepare_drivers_loop_all_ok (active_drivers ps) h
    have hok : (prepare_drivers_loop (active_drivers ps)).2 = true := by rw [hloop]
    rw [executeM, if_pos hok]
    refine ⟨rfl, ?_, rfl, rfl⟩
    rw [hloop]
  · intro h
    have hfail := prepare_drivers_loop_fail (active_drivers ps) h
    rw [executeM, if_neg (by rw [hfail]; exact fun hc => absurd hc (by decide))]
    exact ⟨rfl, rfl, rfl⟩

theorem c9_execute_active_only_witness :
    (∃ d ∈ active_drivers
        [PipelineE.mk true [DriverE.mk 1 true, DriverE.mk 2 false],
          PipelineE.mk false [DriverE.mk 3 true]],
      d.prepare_ok = false) ∧
    ((executeM [PipelineE.mk true [DriverE.mk 1 true, DriverE.mk 2 false],
        PipelineE.mk false [DriverE.mk 3 true]]).success = false ∧
      (executeM [PipelineE.mk true [DriverE.mk 1 true, DriverE.mk 2 false],
        PipelineE.mk false [DriverE.mk 3 true]]).submitted_driver_ids = [] ∧
      (executeM [PipelineE.mk true [DriverE.mk 1 true, DriverE.mk 2 false],
        PipelineE.mk false [DriverE.mk 3 true]]).cleanup_ran = true) :=
  ⟨by decide,
    (c9_execute_active_only
      [PipelineE.mk true [DriverE.mk 1 true, DriverE.mk 2 false],
        PipelineE.mk false [DriverE.mk 3 true]]).2.2.2.2 (by decide)⟩

/-! ## Query-context registry, admission control and the prepare protocol

Embeds the state-relevant skeleton of `FragmentExecutor::prepare`
(`fragment_executor.cpp`, lines 643-742): the process-memory pre-check,
the duplicate-invocation check of `_prepare_query_ctx` (lines 110-124),
the query-context registration and deadline updates (lines 126-136), the
single admission-token acquisition sized to the fragment's total dop
(line 619), the registration of the fragment instance (line 737), and the
`_fail_cleanup` guard (lines 662-703, 795-806).  The intermediate
preparation steps (fragment context, workgroup, runtime state, plan),
which can only fail before the token acquisition, are collapsed into the
single failure gate `plan_prep_ok`. -/

structure QueryCtxM where
  delivery_expire_seconds : Int
  query_expire_seconds : Int
  fragment_ids : List Int
  deriving DecidableEq

structure DriverLimiterM where
  max_total_drivers : Nat
  num_total_drivers : Nat
  deriving DecidableEq

/-- Modelled from the spec: `DriverLimiter::try_acquire` is declared
outside the embedded source; per the spec it issues a token of `N`
lane-slots from a "process-wide counter bounding total
concurrently-instantiated execution lanes" and "fails (not retried) when
the process-wide concurrency budget is exhausted". -/
def DriverLimiterM.try_acquire (dl : DriverLimiterM) (count : Nat) :
    Option DriverLimiterM :=
  if dl.num_total_drivers + count ≤ dl.max_total_drivers then
    some (DriverLimiterM.mk dl.max_total_drivers (dl.num_total_drivers + count))
  else none

structure ExecEnvM where
  query_ctxs : List (Int × QueryCtxM)
  driver_limiter : DriverLimiterM
  mem_check_ok : Bool
  plan_prep_ok : Bool
  deriving DecidableEq

structure PrepareRequestM where
  query_id : Int
  fragment_instance_id : Int
  query_options : QueryOptions
  total_dop : Nat
  deriving DecidableEq

inductive StatusKind where
  | ok
  | duplicate_rpc_invocation
  | mem_limit_exceeded
  | internal_error
  | resource_exhausted
  deriving DecidableEq

/-- Result of one `prepare` call: its status, the environment afterwards,
the sequence of `try_acquire` requests issued (with the lane count of
each), and whether the `_fail_cleanup` path of the deferred guard ran. -/
structure PrepareOutcome where
  status : StatusKind
  env : ExecEnvM
  try_acquire_requests : List Nat
  cleanup_ran : Bool
  deriving DecidableEq

def default_query_ctx : QueryCtxM :=
  QueryCtxM.mk DEFAULT_EXPIRE_SECONDS DEFAULT_EXPIRE_SECONDS []

/-- Steps of `prepare` past the duplicate check: `get_or_register` of the
query context with the deadline updates of `_prepare_query_ctx`, the
collapsed intermediate steps, the single token acquisition sized
`total_dop`, and — only after a successful acquisition — the registration
of the fragment instance in the query context's fragment manager.
Failures run `_fail_cleanup`, which never adds the fragment to the
registry. -/
def prepare_rest (env : ExecEnvM) (req : PrepareRequestM) : PrepareOutcome :=
  let qc0 := (alookup env.query_ctxs req.query_id).getD default_query_ctx
  let qc1 := QueryCtxM.mk (calc_delivery_expired_seconds req.query_options)
    (calc_query_expired_seconds req.query_options) qc0.fragment_ids
  let env1 := ExecEnvM.mk (ainsert env.query_ctxs req.query_id qc1) env.driver_limiter
    env.mem_check_ok env.plan_prep_ok
  if env.plan_prep_ok = false then
    PrepareOutcome.mk StatusKind.internal_error env1 [] true
  else
    match env1.driver_limiter.try_acquire req.total_dop with
    | none => PrepareOutcome.mk StatusKind.resource_exhausted env1 [req.total_dop] true
    | some limiter1 =>
      let qc2 := QueryCtxM.mk qc1.delivery_expire_seconds qc1.query_expire_seconds
        (qc1.fragment_ids ++ [req.fragment_instance_id])
      PrepareOutcome.mk StatusKind.ok
        (ExecEnvM.mk (ainsert env1.query_ctxs req.query_id qc2) limiter1
          env.mem_check_ok env.plan_prep_ok)
        [req.total_dop] false

/-- Embeds `FragmentExecutor::prepare`: the process-memory pre-check, then
the duplicate-invocation check — which returns `DuplicateRpcInvocation`
before touching any state (the executor's `_query_ctx` member is still
null, so the deferred `_fail_cleanup` is a no-op) — then the remaining
preparation steps. -/
def prepare (env : ExecEnvM) (req : PrepareRequestM) : PrepareOutcome :=
  if env.mem_check_ok = false then
    PrepareOutcome.mk StatusKind.mem_limit_exceeded env [] true
  else
    match alookup env.query_ctxs req.query_id with
    | some qc =>
      if req.fragment_instance_id ∈ qc.fragment_ids then
        PrepareOutcome.mk StatusKind.duplicate_rpc_invocation env [] true
      else prepare_rest env req
    | none => prepare_rest env req

/-- C1: a prepare call finding a fragment context already registered for
its `(query_id, fragment_instance_id)` returns `DuplicateRpcInvocation`
without mutating any state: the environment — query-context registry
contents and deadlines included — is returned unchanged, and no admission
token is requested. -/
theorem c1_duplicate_prepare_rejected (env : ExecEnvM) (req : PrepareRequestM)
    (qc : QueryCtxM) (hmem : env.mem_check_ok = true)
    (hq : alookup env.query_ctxs req.query_id = some qc)
    (hf : req.fragment_instance_id ∈ qc.fragment_ids) :
    (prepare env req).status = StatusKind.duplicate_rpc_invocation ∧
    (prepare env req).env = env ∧
    (prepare env req).try_acquire_requests = [] := by
  simp [prepare, hmem, hq, hf]

theorem c1_duplicate_prepare_rejected_witness :
    (prepare (ExecEnvM.mk [(1, QueryCtxM.mk 300 300 [7])] (DriverLimiterM.mk 10 0) true true)
      (PrepareRequestM.mk 1 7 (QueryOptions.mk none none) 4)).status =
        StatusKind.duplicate_rpc_invocation ∧
    (prepare (ExecEnvM.mk [(1, QueryCtxM.mk 300 300 [7])] (DriverLimiterM.mk 10 0) true true)
      (PrepareRequestM.mk 1 7 (QueryOptions.mk none none) 4)).env =
        ExecEnvM.mk [(1, QueryCtxM.mk 300 300 [7])] (DriverLimiterM.mk 10 0) true true :=
  ⟨(c1_duplicate_prepare_rejected
      (ExecEnvM.mk [(1, QueryCtxM.mk 300 300 [7])] (DriverLimiterM.mk 10 0) true true)
      (PrepareRequestM.mk 1 7 (QueryOptions.mk none none) 4)
      (QueryCtxM.mk 300 300 [7]) (by decide) (by decide) (by decide)).1,
    (c1_duplicate_prepare_rejected
      (ExecEnvM.mk [(1, QueryCtxM.mk 300 300 [7])] (DriverLimiterM.mk 10 0) true true)
      (PrepareRequestM.mk 1 7 (QueryOptions.mk none none) 4)
      (QueryCtxM.mk 300 300 [7]) (by decide) (by decide) (by decide)).2.1⟩

/-- C2: a non-duplicate prepare issues exactly one admission-token request,
sized to the fragment's `total_dop`; if the acquisition fails (the
process-wide budget would be exceeded), prepare returns
`ResourceExhausted`, the failure cleanup path runs, and the fragment is
absent from the query registry afterwards; the fragment is registered only
on the success path, after the token acquisition. -/
theorem c2_admission_token_gate (env : ExecEnvM) (req : PrepareRequestM)
    (hmem : env.mem_check_ok = true) (hplan : env.plan_prep_ok = true)
    (hnew : ∀ qc, alookup env.query_ctxs req.query_id = some qc →
      req.fragment_instance_id ∉ qc.fragment_ids) :
    ((prepare env req).try_acquire_requests = [req.total_dop]) ∧
    (env.driver_limiter.max_total_drivers <
        env.driver_limiter.num_total_drivers + req.total_dop →
      (prepare env req).status = StatusKind.resource_exhausted ∧
      (prepare env req).cleanup_ran = true ∧
      ∀ qc, alookup (prepare env req).env.query_ctxs req.query_id = some qc →
        req.fragment_instance_id ∉ qc.fragment_ids) ∧
    (env.driver_limiter.num_total_drivers + req.total_dop ≤
        env.driver_limiter.max_total_drivers →
      (prepare env req).status = StatusKind.ok ∧
      ∀ qc, alookup (prepare env req).env.query_ctxs req.query_id = some qc →
        req.fragment_instance_id ∈ qc.fragment_ids) := by
  have hpr : prepare env req = prepare_rest env req := by
    cases hq : alookup env.query_ctxs req.query_id with
    | none => simp [prepare, hmem, hq]
    | some qc => simp [prepare, hmem, hq, hnew qc hq]
  have hfid0 : req.fragment_instance_id ∉
      ((alookup env.query_ctxs req.query_id).getD default_query_ctx).fragment_ids := by
    cases hq : alookup env.query_ctxs req.query_id with
    | none => simp [default_query_ctx]
    | some qc => simpa using hnew qc hq
  refine ⟨?_, ?_, ?_⟩
  · rw [hpr]
    by_cases hacq : env.driver_limiter.num_total_drivers + req.total_dop ≤
        env.driver_limiter.max_total_drivers
    · simp [prepare_rest, hplan, DriverLimiterM.try_acquire, hacq]
    · simp [prepare_rest, hplan, DriverLimiterM.try_acquire, hacq]
  · intro hgt
    have hacq : ¬(env.driver_limiter.num_total_drivers + req.total_dop ≤
        env.driver_limiter.max_total_drivers) := by omega
    rw [hpr]
    refine ⟨?_, ?_, ?_⟩
    · simp [prepare_rest, hplan, DriverLimiterM.try_acquire, hacq]
    · simp [prepare_rest, hplan, DriverLimiterM.try_acquire, hacq]
    · intro qc hqc
      simp [prepare_rest, hplan, DriverLimiterM.try_acquire, hacq,
        alookup_ainsert_self, Option.some.injEq] at hqc
      subst hqc
      simpa using hfid0
  · intro hacq
    rw [hpr]
    constructor
    · simp [prepare_rest, hplan, DriverLimiterM.try_acquire, hacq]
    · intro qc hqc
      simp [prepare_rest, hplan, DriverLimiterM.try_acquire, hacq,
        alookup_ainsert_self, Option.some.injEq] at hqc
      subst hqc
      simp

theorem c2_admission_token_gate_witness :
    (prepare (ExecEnvM.mk [] (DriverLimiterM.mk 2 0) true true)
      (PrepareRequestM.mk 1 7 (QueryOptions.mk none none) 4)).try_acquire_requests = [4] ∧
    ((prepare (ExecEnvM.mk [] (DriverLimiterM.mk 2 0) true true)
        (PrepareRequestM.mk 1 7 (QueryOptions.mk none none) 4)).status =
      StatusKind.resource_exhausted ∧
      (prepare (ExecEnvM.mk [] (DriverLimiterM.mk 2 0) true true)
        (PrepareRequestM.mk 1 7 (QueryOptions.mk none none) 4)).cleanup_ran = true ∧
      ∀ qc, alookup (prepare (ExecEnvM.mk [] (DriverLimiterM.mk 2 0) true true)
          (PrepareRequestM.mk 1 7 (QueryOptions.mk none none) 4)).env.query_ctxs 1 =
            some qc →
        (7 : Int) ∉ qc.fragment_ids) :=
  ⟨(c2_admission_token_gate (ExecEnvM.mk [] (DriverLimiterM.mk 2 0) true true)
      (PrepareRequestM.mk 1 7 (QueryOptions.mk none none) 4) (by decide) (by decide)
      (fun qc h => by simp [alookup] at h)).1,
    (c2_admission_token_gate (ExecEnvM.mk [] (DriverLimiterM.mk 2 0) true true)
      (PrepareRequestM.mk 1 7 (QueryOptions.mk none none) 4) (by decide) (by decide)
      (fun qc h => by simp [alookup] at h)).2.1 (by decide)⟩

end FragmentExecutor
